import Mathlib

/-!
Verification of the resilience/orchestration core of the plugin-browserbase
repository: the retry-with-backoff executor, the captcha task client's
polling loop, the captcha variant detector, and the bounded session pool
(`StagehandService` in `src/index.ts`).

The session pool is embedded directly from `src/index.ts`.  The retry
executor and the captcha client/detector live in `src/retry.ts` and
`src/capsolver.ts`, which are not part of the source snapshot (only their
test suites are); those components are modelled from the specification.
-/

namespace Browserbase

/-! ## Retry executor (spec §4.2), modelled from the spec -/

/-- Modelled from the spec: `RetryConfig` (§3) for the missing `src/retry.ts`:
`{maxAttempts≥1, initialDelay≥0, maxDelay≥initialDelay, backoffFactor≥1,
timeoutPerAttempt≥0 (0 = none)}`.  Delays are rationals (milliseconds). -/
structure RetryConfig where
  maxAttempts : Nat
  initialDelay : ℚ
  maxDelay : ℚ
  backoffFactor : ℚ
  timeoutPerAttempt : ℚ
  deriving Repr, DecidableEq

/-- Behaviour of one invocation of the wrapped operation: it runs for
`duration` (vs. the per-attempt timer) and would produce `result`. -/
inductive OpBehavior (α ε : Type) where
  | completes (duration : ℚ) (result : Except ε α)

/-- An attempt-level error: either the per-attempt timer won the race
(a TimeoutError carrying the attempt's elapsed budget) or the operation
itself failed. -/
inductive AttemptError (ε : Type) where
  | timeout (budget : ℚ)
  | opErr (e : ε)

/-- Result of a single attempt after racing against the timer. -/
inductive AttemptResult (α ε : Type) where
  | ok (a : α)
  | err (e : AttemptError ε)

/-- Modelled from the spec: step 1a of the executor algorithm (§4.2).  If
`timeoutPerAttempt > 0` the operation races a timer; a timer win (the
operation's duration exceeds the budget) fails the attempt with a
TimeoutError, otherwise the operation's own result stands. -/
def attemptResult (cfg : RetryConfig) : OpBehavior α ε → AttemptResult α ε
  | .completes d r =>
    if 0 < cfg.timeoutPerAttempt ∧ cfg.timeoutPerAttempt < d then
      .err (.timeout cfg.timeoutPerAttempt)
    else
      match r with
      | .ok a => .ok a
      | .error e => .err (.opErr e)

/-- Modelled from the spec: classification of an attempt-level error (§4.1,
§7).  TimeoutError is recovered locally (retryable); an operation error is
classified by the supplied predicate `cls`. -/
def errRetryable (cls : ε → Bool) : AttemptError ε → Bool
  | .timeout _ => true
  | .opErr e => cls e

/-- Final outcome of `execute`: exactly one of success, non-retryable abort,
exhausted-retries abort (§4.2 guarantee); `noBudget` is the degenerate
`maxAttempts = 0` artefact, unreachable for spec-conforming configs. -/
inductive RetryOutcome (α ε : Type) where
  | ok (a : α)
  | nonRetryable (e : AttemptError ε) (attempt : Nat)
  | exhausted (e : AttemptError ε) (attempts : Nat)
  | noBudget

/-- Observable trace of one `execute` call: how many times the operation was
invoked, the delays slept between attempts (in order), and the outcome. -/
structure ExecTrace (α ε : Type) where
  invocations : Nat
  delays : List ℚ
  outcome : RetryOutcome α ε

/-- Modelled from the spec: step 1d of §4.2.  Delay slept after a retryable
failure of attempt `k`: `base = min(initialDelay × backoffFactor^(k-1),
maxDelay)` plus a random jitter in `[0, base × 0.5]`; the randomness source
is the stream `u` of draws in `[0,1]`. -/
def retryDelay (cfg : RetryConfig) (u : Nat → ℚ) (k : Nat) : ℚ :=
  let base := min (cfg.initialDelay * cfg.backoffFactor ^ (k - 1)) cfg.maxDelay
  base + base / 2 * u k

/-- Modelled from the spec: the attempt loop of §4.2 for the missing
`src/retry.ts` (`retryWithBackoff`).  `prior` counts attempts already made
(the next attempt is `prior + 1`), `fuel` is the remaining attempt budget.
On success return immediately; on a non-retryable failure abort immediately;
on a retryable failure with attempts remaining sleep `retryDelay` and
continue; on a retryable failure with no attempts remaining surface the last
error. -/
def executeFrom (cfg : RetryConfig) (cls : ε → Bool) (op : Nat → OpBehavior α ε)
    (u : Nat → ℚ) : Nat → Nat → ExecTrace α ε
  | _, 0 => { invocations := 0, delays := [], outcome := .noBudget }
  | prior, Nat.succ rest =>
    match attemptResult cfg (op (prior + 1)) with
    | .ok a => { invocations := 1, delays := [], outcome := .ok a }
    | .err e =>
      if errRetryable cls e then
        match rest with
        | 0 => { invocations := 1, delays := [], outcome := .exhausted e (prior + 1) }
        | Nat.succ r2 =>
          let t := executeFrom cfg cls op u (prior + 1) (Nat.succ r2)
          { invocations := t.invocations + 1,
            delays := retryDelay cfg u (prior + 1) :: t.delays,
            outcome := t.outcome }
      else
        { invocations := 1, delays := [], outcome := .nonRetryable e (prior + 1) }

/-- Modelled from the spec: `execute(operation, config, label)` of §4.2,
starting at attempt 1 with the full `maxAttempts` budget. -/
def execute (cfg : RetryConfig) (cls : ε → Bool) (op : Nat → OpBehavior α ε)
    (u : Nat → ℚ) : ExecTrace α ε :=
  executeFrom cfg cls op u 0 cfg.maxAttempts

/-! ## Captcha task client polling loop (spec §4.3), modelled from the spec -/

/-- Status reported by one status query of the solving service (§6, §4.3). -/
inductive PollStatus (σ : Type) where
  | pending
  | ready (solution : σ)
  | failed

/-- Result of the bounded polling loop: the solution together with the
number of status queries issued, a ServiceError on a `failed` status (with
the query at which it was seen), or a CaptchaTimeoutError when the budget is
exhausted while still `pending`. -/
inductive PollResult (σ : Type) where
  | solved (solution : σ) (queries : Nat)
  | serviceError (query : Nat)
  | captchaTimeout

/-- Modelled from the spec: the bounded polling loop of §4.3 for the missing
`src/capsolver.ts` (`CapSolverService.getTaskResult`).  `query` is the index
of the next status query (1-based); `fuel` the remaining iteration budget;
`resp` maps each query index to the status the service reports.  On `ready`
return the solution and stop; on `failed` surface a ServiceError
immediately; if the budget runs out while still `pending`, surface a
CaptchaTimeoutError. -/
def pollFrom (resp : Nat → PollStatus σ) : Nat → Nat → PollResult σ
  | _, 0 => .captchaTimeout
  | query, Nat.succ rest =>
    match resp query with
    | .ready s => .solved s query
    | .failed => .serviceError query
    | .pending => pollFrom resp (query + 1) rest

/-- Modelled from the spec: `poll(taskId)` of §4.3 — up to `retryAttempts`
iterations, sleeping `pollingInterval` between them (the sleep does not
affect which statuses are observed, so it is not part of the state). -/
def poll (retryAttempts : Nat) (resp : Nat → PollStatus σ) : PollResult σ :=
  pollFrom resp 1 retryAttempts

/-! ## Captcha detector (spec §4.4), modelled from the spec -/

/-- Captcha variant enumeration (§3, `CaptchaDescriptor.variant`). -/
inductive CaptchaVariant where
  | turnstile
  | recaptchaV2
  | recaptchaV3
  | hcaptcha
  | noCaptcha
  deriving Repr, DecidableEq

/-- Embeds `CaptchaDescriptor` (§3): variant plus the extracted site key, absent
when no captcha matched. -/
structure CaptchaDescriptor where
  variant : CaptchaVariant
  siteKey : Option String
  deriving Repr, DecidableEq

/-- Abstraction of the page markup facts the detector inspects (§4.4):
which variant markers are present, the site key each marker family would
yield, and whether the secondary reCAPTCHA check indicates v3 (absence of a
visible challenge widget). -/
structure PageMarkup where
  hasTurnstileMarker : Bool
  turnstileSiteKey : Option String
  hasRecaptchaMarker : Bool
  recaptchaSiteKey : Option String
  recaptchaIsV3 : Bool
  hasHcaptchaMarker : Bool
  hcaptchaSiteKey : Option String
  deriving Repr, DecidableEq

/-- Modelled from the spec: `detect(page)` of §4.4 for the missing
`src/capsolver.ts` (`detectCaptchaType`).  Fixed priority order: Turnstile
markers first, then reCAPTCHA (v3 distinguished by absence of a visible
challenge widget), then hCaptcha; the first match wins, otherwise
`{variant: none}`. -/
def detect (p : PageMarkup) : CaptchaDescriptor :=
  if p.hasTurnstileMarker then
    { variant := .turnstile, siteKey := p.turnstileSiteKey }
  else if p.hasRecaptchaMarker then
    if p.recaptchaIsV3 then
      { variant := .recaptchaV3, siteKey := p.recaptchaSiteKey }
    else
      { variant := .recaptchaV2, siteKey := p.recaptchaSiteKey }
  else if p.hasHcaptchaMarker then
    { variant := .hcaptcha, siteKey := p.hcaptchaSiteKey }
  else
    { variant := .noCaptcha, siteKey := none }

/-! ## Session pool — embedded from `src/index.ts` (`StagehandService`) -/

/-- Embeds `BrowserSession` (src/index.ts:50-68): id, creation timestamp
(`Date.getTime()` in milliseconds), and the opaque Stagehand handle,
represented by a numeric identifier. -/
structure Session where
  id : String
  createdAt : Nat
  handle : Nat
  deriving Repr, DecidableEq

/-- Observable event of the pool: an attempted close of a handle
(`stagehand.close()` inside `BrowserSession.destroy`), recording whether
the close succeeded.  A failed close is caught and logged
(src/index.ts:61-67), so it produces an event but never an exception. -/
inductive PoolEvent where
  | closeAttempt (handle : Nat) (ok : Bool)
  deriving Repr, DecidableEq

/-- Embeds `BrowserSession.destroy` (src/index.ts:61-67): try to close the handle;
a failure is caught and logged.  `closeOk` tells whether a given handle's
close succeeds; either way the attempt is recorded and nothing propagates. -/
def sessionDestroy (closeOk : Nat → Bool) (s : Session) : List PoolEvent :=
  [.closeAttempt s.handle (closeOk s.handle)]

/-- The `StagehandService` pool state (src/index.ts:77-79): the insertion-
ordered `sessions` map (a JS `Map`, modelled as an association list with
unique ids), `currentSessionId`, and `maxSessions` (hard-coded 3 in the
source; kept as a field so the capacity hypothesis is explicit). -/
structure PoolState where
  sessions : List Session
  currentSessionId : Option String
  maxSessions : Nat
  deriving Repr, DecidableEq

/-- JS `Map.get` (src/index.ts:150-152, `getSession`): lookup by id. -/
def getSession (st : PoolState) (sid : String) : Option Session :=
  st.sessions.find? (fun s => s.id = sid)

/-- Embeds `getCurrentSession` (src/index.ts:154-159): `undefined` when no current
id is set, otherwise a plain map lookup (which may itself miss). -/
def getCurrentSession (st : PoolState) : Option Session :=
  match st.currentSessionId with
  | none => none
  | some sid => st.sessions.find? (fun s => s.id = sid)

/-- JS `Map.set` (src/index.ts:144): overwrite in place when the key exists
(keeping its insertion position), otherwise append. -/
def mapSet : List Session → Session → List Session
  | [], s => [s]
  | t :: rest, s => if t.id = s.id then s :: rest else t :: mapSet rest s

/-- The first entry of `Array.from(entries).sort((a,b) => a.createdAt -
b.createdAt)` (src/index.ts:112-114): the session with minimal `createdAt`;
JS `sort` is stable, so ties go to the earliest-inserted entry, which the
fold reproduces by keeping the accumulator on ties. -/
def oldestSession : List Session → Option Session
  | [] => none
  | s :: rest =>
    some (rest.foldl (fun acc t => if t.createdAt < acc.createdAt then t else acc) s)

/-- Embeds `destroySession` (src/index.ts:161-170): if the id is present, destroy
the session (attempted close), delete the map entry, and clear
`currentSessionId` if it pointed at this id; otherwise do nothing. -/
def destroySession (closeOk : Nat → Bool) (st : PoolState) (sid : String) :
    PoolState × List PoolEvent :=
  match st.sessions.find? (fun s => s.id = sid) with
  | none => (st, [])
  | some s =>
    ({ sessions := st.sessions.filter (fun t => ¬ t.id = sid),
       currentSessionId :=
         if st.currentSessionId = some sid then none else st.currentSessionId,
       maxSessions := st.maxSessions },
     sessionDestroy closeOk s)

/-- Embeds `createSession` (src/index.ts:108-148): when `sessions.size ≥
maxSessions`, destroy the oldest session first; then initialise a new
Stagehand handle (`newHandle`, created at time `now`), `set` it into the
map, and point `currentSessionId` at the new id. -/
def createSession (closeOk : Nat → Bool) (st : PoolState) (sid : String)
    (now : Nat) (newHandle : Nat) : PoolState × List PoolEvent :=
  let (st1, evs) :=
    if st.maxSessions ≤ st.sessions.length then
      match oldestSession st.sessions with
      | some old => destroySession closeOk st old.id
      | none => (st, [])
    else (st, [])
  ({ sessions := mapSet st1.sessions ⟨sid, now, newHandle⟩,
     currentSessionId := some sid,
     maxSessions := st1.maxSessions },
   evs)

/-- The loop of `stop` (src/index.ts:100-106): iterate over the map entries
in order; for each, destroy the session then `delete` its key from the map
(modelled as removing every entry with that key from what remains), and
continue the iteration over the remaining entries.  Returns the map left
after the loop and the events emitted. -/
def stopLoop (closeOk : Nat → Bool) : List Session → List Session × List PoolEvent
  | [] => ([], [])
  | s :: rest =>
    let evs := sessionDestroy closeOk s
    let r := stopLoop closeOk (rest.filter (fun t => ¬ t.id = s.id))
    (r.1, evs ++ r.2)
termination_by l => l.length
decreasing_by simpa using Nat.lt_succ_of_le (List.length_filter_le _ _)

/-- Embeds `stop` (destroyAll, src/index.ts:100-106): destroy and delete every
session.  Note the source does not touch `currentSessionId` here. -/
def stop (closeOk : Nat → Bool) (st : PoolState) : PoolState × List PoolEvent :=
  let r := stopLoop closeOk st.sessions
  ({ sessions := r.1, currentSessionId := st.currentSessionId,
     maxSessions := st.maxSessions },
   r.2)

/-- A public operation of the session pool (spec §4.5): create, destroy,
lookup by id, lookup current, destroy all. -/
inductive PoolOp where
  | create (sid : String) (now : Nat) (newHandle : Nat)
  | destroy (sid : String)
  | lookup (sid : String)
  | lookupCurrent
  | destroyAll
  deriving Repr, DecidableEq

/-- Dispatch of a public pool operation to the embedded methods of
`StagehandService`; `getSession`/`getCurrentSession` only read state. -/
def step (closeOk : Nat → Bool) (op : PoolOp) (st : PoolState) :
    PoolState × List PoolEvent :=
  match op with
  | .create sid now newHandle => createSession closeOk st sid now newHandle
  | .destroy sid => destroySession closeOk st sid
  | .lookup _ => (st, [])
  | .lookupCurrent => (st, [])
  | .destroyAll => stop closeOk st

/-- Well-formedness of a pool state, mirroring the spec §3 invariant: the
pool holds at most `maxSessions` sessions, its ids are pairwise distinct
(it models a JS `Map`), and `currentSessionId`, when present, names a
session still in the pool. -/
def PoolWF (st : PoolState) : Prop :=
  st.sessions.length ≤ st.maxSessions ∧
    (st.sessions.map Session.id).Nodup ∧
    ∀ sid, st.currentSessionId = some sid → ∃ s ∈ st.sessions, s.id = sid

/-! ## Claims about the retry executor -/

/-- C1: for every zero-argument fallible operation and a retry config with
maxAttempts = 3, if the operation fails on its first two invocations with
retryable errors and succeeds on the third, then execute invokes the
operation exactly 3 times and returns the third invocation's success
value. -/
theorem retry_three_attempts_success {α ε : Type}
    (cfg : RetryConfig) (cls : ε → Bool) (op : Nat → OpBehavior α ε) (u : Nat → ℚ)
    (e1 e2 : AttemptError ε) (v : α)
    (hmax : cfg.maxAttempts = 3)
    (h1 : attemptResult cfg (op 1) = .err e1) (hr1 : errRetryable cls e1 = true)
    (h2 : attemptResult cfg (op 2) = .err e2) (hr2 : errRetryable cls e2 = true)
    (h3 : attemptResult cfg (op 3) = .ok v) :
    (execute cfg cls op u).invocations = 3 ∧
      (execute cfg cls op u).outcome = .ok v := by
  unfold execute
  rw [hmax]
  simp [executeFrom, h1, hr1, h2, hr2, h3]

/-- Concrete instance for `retry_three_attempts_success`. -/
theorem retry_three_attempts_success_witness :
    (execute (α := Nat) (ε := Nat) ⟨3, 100, 1000, 2, 0⟩ (fun _ => true)
        (fun k => if 3 ≤ k then .completes 0 (.ok 42) else .completes 0 (.error 7))
        (fun _ => 0)).invocations = 3 ∧
      (execute (α := Nat) (ε := Nat) ⟨3, 100, 1000, 2, 0⟩ (fun _ => true)
        (fun k => if 3 ≤ k then .completes 0 (.ok 42) else .completes 0 (.error 7))
        (fun _ => 0)).outcome = .ok 42 :=
  retry_three_attempts_success _ _ _ _ (.opErr 7) (.opErr 7) 42 rfl
    (by simp [attemptResult]) rfl (by simp [attemptResult]) rfl
    (by simp [attemptResult])

/-- C2: for every operation whose first failure is classified as
non-retryable and every retry config (with at least one attempt), execute
invokes the operation exactly once and surfaces the original error tagged
with attempt 1, regardless of maxAttempts. -/
theorem retry_nonretryable_single_attempt {α ε : Type}
    (cfg : RetryConfig) (cls : ε → Bool) (op : Nat → OpBehavior α ε) (u : Nat → ℚ)
    (e : AttemptError ε)
    (hmax : 1 ≤ cfg.maxAttempts)
    (h1 : attemptResult cfg (op 1) = .err e) (hr : errRetryable cls e = false) :
    (execute cfg cls op u).invocations = 1 ∧
      (execute cfg cls op u).outcome = .nonRetryable e 1 := by
  obtain ⟨rest, hrest⟩ := Nat.exists_eq_add_of_le hmax
  unfold execute
  rw [hrest, Nat.add_comm]
  simp [executeFrom, h1, hr]

/-- Concrete instance for `retry_nonretryable_single_attempt`. -/
theorem retry_nonretryable_single_attempt_witness :
    (execute (α := Nat) (ε := Nat) ⟨5, 100, 1000, 2, 0⟩ (fun e => e == 0)
        (fun _ => .completes 0 (.error 7)) (fun _ => 0)).invocations = 1 ∧
      (execute (α := Nat) (ε := Nat) ⟨5, 100, 1000, 2, 0⟩ (fun e => e == 0)
        (fun _ => .completes 0 (.error 7)) (fun _ => 0)).outcome =
        .nonRetryable (.opErr 7) 1 :=
  retry_nonretryable_single_attempt _ _ _ _ (.opErr 7) (by norm_num)
    (by simp [attemptResult]) rfl

/-- One step of the executor on a retryable failure with attempts
remaining: the attempt is consumed, its delay is recorded, and the run
continues from the next attempt. -/
theorem executeFrom_retry_step {α ε : Type}
    (cfg : RetryConfig) (cls : ε → Bool) (op : Nat → OpBehavior α ε) (u : Nat → ℚ)
    (prior rest : Nat) (e : AttemptError ε)
    (h1 : attemptResult cfg (op (prior + 1)) = .err e)
    (hr : errRetryable cls e = true) :
    executeFrom cfg cls op u prior (rest + 2) =
      { invocations := (executeFrom cfg cls op u (prior + 1) (rest + 1)).invocations + 1,
        delays :=
          retryDelay cfg u (prior + 1) ::
            (executeFrom cfg cls op u (prior + 1) (rest + 1)).delays,
        outcome := (executeFrom cfg cls op u (prior + 1) (rest + 1)).outcome } := by
  conv_lhs => rw [executeFrom]
  rw [h1]
  simp [hr]

/-- C3: with timeoutPerAttempt > 0, an attempt whose operation does not
complete within the budget fails that attempt with a TimeoutError, the
TimeoutError is retryable, and when further attempts remain the executor
proceeds to the next attempt exactly as for any other retryable failure —
the timeout consumes that attempt's own budget slot (one invocation, one
recorded delay) and the rest of the run is the run starting from the next
attempt. -/
theorem retry_timeout_consumes_slot {α ε : Type}
    (cfg : RetryConfig) (cls : ε → Bool) (op : Nat → OpBehavior α ε) (u : Nat → ℚ)
    (prior rest : Nat) (dur : ℚ) (r : Except ε α)
    (ht : 0 < cfg.timeoutPerAttempt)
    (hop : op (prior + 1) = .completes dur r)
    (hd : cfg.timeoutPerAttempt < dur) :
    attemptResult cfg (op (prior + 1)) = .err (.timeout cfg.timeoutPerAttempt) ∧
      errRetryable cls (AttemptError.timeout cfg.timeoutPerAttempt) = true ∧
      executeFrom cfg cls op u prior (rest + 2) =
        { invocations := (executeFrom cfg cls op u (prior + 1) (rest + 1)).invocations + 1,
          delays :=
            retryDelay cfg u (prior + 1) ::
              (executeFrom cfg cls op u (prior + 1) (rest + 1)).delays,
          outcome := (executeFrom cfg cls op u (prior + 1) (rest + 1)).outcome } := by
  have h1 : attemptResult cfg (op (prior + 1)) = .err (.timeout cfg.timeoutPerAttempt) := by
    rw [hop]
    simp [attemptResult, ht, hd]
  exact ⟨h1, rfl, executeFrom_retry_step cfg cls op u prior rest _ h1 rfl⟩

/-- Concrete instance for `retry_timeout_consumes_slot`. -/
theorem retry_timeout_consumes_slot_witness :
    attemptResult (α := Nat) (ε := Nat) ⟨3, 100, 1000, 2, 50⟩
        ((fun _ => OpBehavior.completes 60 (Except.ok 1)) 1) =
        .err (.timeout 50) ∧
      errRetryable (fun (_ : Nat) => true) (AttemptError.timeout 50) = true ∧
      executeFrom (α := Nat) (ε := Nat) ⟨3, 100, 1000, 2, 50⟩ (fun _ => true)
          (fun _ => .completes 60 (.ok 1)) (fun _ => 0) 0 2 =
        { invocations :=
            (executeFrom (α := Nat) (ε := Nat) ⟨3, 100, 1000, 2, 50⟩ (fun _ => true)
              (fun _ => .completes 60 (.ok 1)) (fun _ => 0) 1 1).invocations + 1,
          delays :=
            retryDelay ⟨3, 100, 1000, 2, 50⟩ (fun _ => 0) 1 ::
              (executeFrom (α := Nat) (ε := Nat) ⟨3, 100, 1000, 2, 50⟩ (fun _ => true)
                (fun _ => .completes 60 (.ok 1)) (fun _ => 0) 1 1).delays,
          outcome :=
            (executeFrom (α := Nat) (ε := Nat) ⟨3, 100, 1000, 2, 50⟩ (fun _ => true)
              (fun _ => .completes 60 (.ok 1)) (fun _ => 0) 1 1).outcome } :=
  retry_timeout_consumes_slot ⟨3, 100, 1000, 2, 50⟩ (fun _ => true)
    (fun _ => .completes 60 (.ok 1)) (fun _ => 0) 0 0 60 (Except.ok 1)
    (by norm_num) rfl (by norm_num)

/-- One step of the executor on a successful attempt: return immediately. -/
theorem executeFrom_ok_step {α ε : Type}
    (cfg : RetryConfig) (cls : ε → Bool) (op : Nat → OpBehavior α ε) (u : Nat → ℚ)
    (prior fuel : Nat) (a : α)
    (h : attemptResult cfg (op (prior + 1)) = .ok a) :
    executeFrom cfg cls op u prior (fuel + 1) =
      { invocations := 1, delays := [], outcome := .ok a } := by
  conv_lhs => rw [executeFrom]
  rw [h]

/-- One step of the executor on a non-retryable failure: abort immediately. -/
theorem executeFrom_nonretry_step {α ε : Type}
    (cfg : RetryConfig) (cls : ε → Bool) (op : Nat → OpBehavior α ε) (u : Nat → ℚ)
    (prior fuel : Nat) (e : AttemptError ε)
    (h : attemptResult cfg (op (prior + 1)) = .err e)
    (hr : errRetryable cls e = false) :
    executeFrom cfg cls op u prior (fuel + 1) =
      { invocations := 1, delays := [], outcome := .nonRetryable e (prior + 1) } := by
  conv_lhs => rw [executeFrom]
  rw [h]
  simp [hr]

/-- One step of the executor on a retryable failure with no attempts
remaining: surface the last error. -/
theorem executeFrom_exhaust_step {α ε : Type}
    (cfg : RetryConfig) (cls : ε → Bool) (op : Nat → OpBehavior α ε) (u : Nat → ℚ)
    (prior : Nat) (e : AttemptError ε)
    (h : attemptResult cfg (op (prior + 1)) = .err e)
    (hr : errRetryable cls e = true) :
    executeFrom cfg cls op u prior 1 =
      { invocations := 1, delays := [], outcome := .exhausted e (prior + 1) } := by
  conv_lhs => rw [executeFrom]
  rw [h]
  simp [hr]

/-- The i-th recorded delay of a run starting after `prior` attempts is the
backoff delay computed for attempt `prior + 1 + i` (the sleep before attempt
`prior + 2 + i`). -/
theorem executeFrom_delays_getD {α ε : Type}
    (cfg : RetryConfig) (cls : ε → Bool) (op : Nat → OpBehavior α ε) (u : Nat → ℚ) :
    ∀ fuel prior i, i < (executeFrom cfg cls op u prior fuel).delays.length →
      (executeFrom cfg cls op u prior fuel).delays.getD i 0 =
        retryDelay cfg u (prior + 1 + i) := by
  intro fuel
  induction fuel using Nat.strong_induction_on with
  | _ fuel ih =>
    intro prior i hi
    match fuel with
    | 0 => simp [executeFrom] at hi
    | 1 =>
      rcases hA : attemptResult cfg (op (prior + 1)) with a | e
      · rw [executeFrom_ok_step cfg cls op u prior 0 a hA] at hi
        simp at hi
      · rcases hR : errRetryable cls e with _ | _
        · rw [executeFrom_nonretry_step cfg cls op u prior 0 e hA hR] at hi
          simp at hi
        · rw [executeFrom_exhaust_step cfg cls op u prior e hA hR] at hi
          simp at hi
    | (rest + 2) =>
      rcases hA : attemptResult cfg (op (prior + 1)) with a | e
      · rw [executeFrom_ok_step cfg cls op u prior (rest + 1) a hA] at hi
        simp at hi
      · rcases hR : errRetryable cls e with _ | _
        · rw [executeFrom_nonretry_step cfg cls op u prior (rest + 1) e hA hR] at hi
          simp at hi
        · rw [executeFrom_retry_step cfg cls op u prior rest e hA hR] at hi ⊢
          rcases i with _ | j
          · simp
          · simp only [List.getD_cons_succ]
            simp only [List.length_cons, Nat.succ_lt_succ_iff] at hi
            rw [ih (rest + 1) (by omega) (prior + 1) j hi]
            congr 1
            omega

/-- C4: for every retry config with nonnegative initialDelay ≤ maxDelay and
backoffFactor ≥ 1, and every jitter draw in [0,1], each delay the executor
sleeps (the i-th recorded delay precedes attempt k = i + 2) lies in
[base, base × 1.5] where base = min(initialDelay × backoffFactor^(k-2),
maxDelay); in particular it never exceeds maxDelay × 1.5. -/
theorem retry_delay_bounds {α ε : Type}
    (cfg : RetryConfig) (cls : ε → Bool) (op : Nat → OpBehavior α ε) (u : Nat → ℚ)
    (h0 : 0 ≤ cfg.initialDelay) (h01 : cfg.initialDelay ≤ cfg.maxDelay)
    (hf : 1 ≤ cfg.backoffFactor)
    (hu : ∀ k, 0 ≤ u k ∧ u k ≤ 1)
    (i : Nat) (hi : i < (execute cfg cls op u).delays.length) :
    min (cfg.initialDelay * cfg.backoffFactor ^ i) cfg.maxDelay ≤
        (execute cfg cls op u).delays.getD i 0 ∧
      (execute cfg cls op u).delays.getD i 0 ≤
        min (cfg.initialDelay * cfg.backoffFactor ^ i) cfg.maxDelay * (3 / 2) ∧
      (execute cfg cls op u).delays.getD i 0 ≤ cfg.maxDelay * (3 / 2) := by
  have hd := executeFrom_delays_getD cfg cls op u cfg.maxAttempts 0 i hi
  rw [execute, hd]
  have hk : 0 + 1 + i = i + 1 := by omega
  rw [hk]
  unfold retryDelay
  simp only [Nat.add_sub_cancel]
  set base := min (cfg.initialDelay * cfg.backoffFactor ^ i) cfg.maxDelay with hbase
  have hb0 : 0 ≤ base := by
    apply le_min
    · exact mul_nonneg h0 (pow_nonneg (le_trans zero_le_one hf) i)
    · exact h0.trans h01
  have hbm : base ≤ cfg.maxDelay := min_le_right _ _
  obtain ⟨hu0, hu1⟩ := hu (i + 1)
  refine ⟨by nlinarith, by nlinarith, by nlinarith⟩

/-- Concrete instance for `retry_delay_bounds`. -/
theorem retry_delay_bounds_witness :
    min ((100 : ℚ) * 2 ^ 0) 1000 ≤
        (execute (α := Nat) (ε := Nat) ⟨3, 100, 1000, 2, 0⟩ (fun _ => true)
          (fun k => if 2 ≤ k then .completes 0 (.ok 1) else .completes 0 (.error 9))
          (fun _ => 1 / 2)).delays.getD 0 0 ∧
      (execute (α := Nat) (ε := Nat) ⟨3, 100, 1000, 2, 0⟩ (fun _ => true)
          (fun k => if 2 ≤ k then .completes 0 (.ok 1) else .completes 0 (.error 9))
          (fun _ => 1 / 2)).delays.getD 0 0 ≤
        min ((100 : ℚ) * 2 ^ 0) 1000 * (3 / 2) ∧
      (execute (α := Nat) (ε := Nat) ⟨3, 100, 1000, 2, 0⟩ (fun _ => true)
          (fun k => if 2 ≤ k then .completes 0 (.ok 1) else .completes 0 (.error 9))
          (fun _ => 1 / 2)).delays.getD 0 0 ≤ (1000 : ℚ) * (3 / 2) :=
  retry_delay_bounds ⟨3, 100, 1000, 2, 0⟩ (fun _ => true)
    (fun k => if 2 ≤ k then .completes 0 (.ok 1) else .completes 0 (.error 9))
    (fun _ => 1 / 2) (by norm_num) (by norm_num) (by norm_num)
    (fun _ => by norm_num) 0
    (by simp [execute, executeFrom, attemptResult, errRetryable])

/-! ## Claims about the polling loop -/

/-- C5: the poll loop queries task status at most retryAttempts times; on
the response sequence pending, pending, ready it returns the ready solution
after exactly 3 queries whenever retryAttempts ≥ 3, and with
retryAttempts = 2 on a pending, pending sequence it raises
CaptchaTimeoutError. -/
theorem poll_bounded_budget {σ : Type}
    (resp : Nat → PollStatus σ) (s : σ) (n : Nat)
    (h1 : resp 1 = .pending) (h2 : resp 2 = .pending) (h3 : resp 3 = .ready s)
    (hn : 3 ≤ n) :
    poll n resp = .solved s 3 ∧ poll 2 resp = .captchaTimeout := by
  obtain ⟨m, hm⟩ := Nat.exists_eq_add_of_le hn
  constructor
  · unfold poll
    rw [hm, Nat.add_comm]
    simp [pollFrom, h1, h2, h3]
  · unfold poll
    simp [pollFrom, h1, h2]

/-- Concrete instance for `poll_bounded_budget`. -/
theorem poll_bounded_budget_witness :
    poll (σ := String) 5 (fun k => if 3 ≤ k then .ready "tok" else .pending) =
        .solved "tok" 3 ∧
      poll (σ := String) 2 (fun k => if 3 ≤ k then .ready "tok" else .pending) =
        .captchaTimeout :=
  poll_bounded_budget _ "tok" 5 rfl rfl rfl (by norm_num)

/-! ## Claims about the captcha detector -/

/-- C10: on a page whose markup exposes both Turnstile and reCAPTCHA
markers, detect returns the turnstile variant with the Turnstile site key:
Turnstile is checked first in the fixed priority order. -/
theorem detect_turnstile_priority
    (p : PageMarkup)
    (ht : p.hasTurnstileMarker = true) (_hr : p.hasRecaptchaMarker = true) :
    (detect p).variant = .turnstile ∧ (detect p).siteKey = p.turnstileSiteKey := by
  simp [detect, ht]

/-- Concrete instance for `detect_turnstile_priority`. -/
theorem detect_turnstile_priority_witness :
    (detect ⟨true, some "ts-key", true, some "rc-key", false, false, none⟩).variant =
        .turnstile ∧
      (detect ⟨true, some "ts-key", true, some "rc-key", false, false, none⟩).siteKey =
        some "ts-key" :=
  detect_turnstile_priority _ rfl rfl

/-! ## Helper lemmas about the session pool -/

/-- The fold inside `oldestSession` returns its seed or a list element, its
result's timestamp is at most the seed's, and is at most every element's. -/
theorem oldestFold_spec (l : List Session) : ∀ init : Session,
    (l.foldl (fun acc t => if t.createdAt < acc.createdAt then t else acc) init = init ∨
        l.foldl (fun acc t => if t.createdAt < acc.createdAt then t else acc) init ∈ l) ∧
      (l.foldl (fun acc t => if t.createdAt < acc.createdAt then t else acc) init).createdAt ≤
        init.createdAt ∧
      ∀ t ∈ l,
        (l.foldl (fun acc t => if t.createdAt < acc.createdAt then t else acc) init).createdAt ≤
          t.createdAt := by
  induction l with
  | nil => exact fun init => ⟨Or.inl rfl, le_refl _, by simp⟩
  | cons a rest ih =>
    intro init
    simp only [List.foldl_cons]
    obtain ⟨hmem, hle, hall⟩ := ih (if a.createdAt < init.createdAt then a else init)
    have hle2 : (if a.createdAt < init.createdAt then a else init).createdAt ≤
        init.createdAt := by
      by_cases hc : a.createdAt < init.createdAt <;> simp [hc]
      exact Nat.le_of_lt hc
    have hlea : (if a.createdAt < init.createdAt then a else init).createdAt ≤
        a.createdAt := by
      by_cases hc : a.createdAt < init.createdAt <;> simp [hc]
      exact Nat.le_of_not_lt hc
    refine ⟨?_, le_trans hle hle2, ?_⟩
    · rcases hmem with h | h
      · rw [h]
        by_cases hc : a.createdAt < init.createdAt <;> simp [hc]
      · exact Or.inr (List.mem_cons_of_mem _ h)
    · intro t ht
      rcases List.mem_cons.mp ht with rfl | ht2
      · exact le_trans hle hlea
      · exact hall t ht2

/-- The oldest session is a member of the pool. -/
theorem oldestSession_mem (l : List Session) (s : Session)
    (h : oldestSession l = some s) : s ∈ l := by
  cases l with
  | nil => simp [oldestSession] at h
  | cons a rest =>
    simp only [oldestSession, Option.some.injEq] at h
    obtain ⟨hmem, _, _⟩ := oldestFold_spec rest a
    rcases hmem with h2 | h2
    · rw [← h, h2]; exact List.mem_cons_self a rest
    · rw [← h]; exact List.mem_cons_of_mem _ h2

/-- The oldest session has minimal `createdAt` among the pool. -/
theorem oldestSession_min (l : List Session) (s : Session)
    (h : oldestSession l = some s) : ∀ t ∈ l, s.createdAt ≤ t.createdAt := by
  cases l with
  | nil => simp [oldestSession] at h
  | cons a rest =>
    simp only [oldestSession, Option.some.injEq] at h
    obtain ⟨_, hle, hall⟩ := oldestFold_spec rest a
    intro t ht
    rcases List.mem_cons.mp ht with rfl | ht2
    · rw [← h]; exact hle
    · rw [← h]; exact hall t ht2

/-- A nonempty pool always has an oldest session. -/
theorem oldestSession_isSome (l : List Session) (hne : l ≠ []) :
    ∃ s, oldestSession l = some s := by
  cases l with
  | nil => exact absurd rfl hne
  | cons a rest => exact ⟨_, rfl⟩

/-- Under unique ids, looking up a member's id finds exactly that member. -/
theorem find?_id_of_nodup (l : List Session) (s : Session)
    (hnd : (l.map Session.id).Nodup) (hs : s ∈ l) :
    l.find? (fun t => t.id = s.id) = some s := by
  induction l with
  | nil => cases hs
  | cons a rest ih =>
    rw [List.map_cons, List.nodup_cons] at hnd
    rcases List.mem_cons.mp hs with rfl | hmem
    · exact List.find?_cons_of_pos _ (by simp)
    · have hne : ¬ (a.id = s.id) := by
        intro he
        exact hnd.1 (by rw [he]; exact List.mem_map_of_mem _ hmem)
      rw [List.find?_cons_of_neg _ (by simpa using hne)]
      exact ih hnd.2 hmem

/-- Under unique ids, two members with the same id are equal. -/
theorem id_inj_of_nodup (l : List Session)
    (hnd : (l.map Session.id).Nodup)
    (s t : Session) (hs : s ∈ l) (ht : t ∈ l) (hid : s.id = t.id) : s = t :=
  List.inj_on_of_nodup_map hnd hs ht hid

/-- Deleting a present id under unique ids removes exactly one entry. -/
theorem length_filter_ne_id (l : List Session) (x : String)
    (hnd : (l.map Session.id).Nodup) (hx : ∃ s ∈ l, s.id = x) :
    (l.filter (fun t => ¬ t.id = x)).length + 1 = l.length := by
  induction l with
  | nil =>
    obtain ⟨s, hs, _⟩ := hx
    cases hs
  | cons a rest ih =>
    rw [List.map_cons, List.nodup_cons] at hnd
    by_cases ha : a.id = x
    · have hrest : rest.filter (fun t => ¬ t.id = x) = rest := by
        rw [List.filter_eq_self]
        intro t ht
        simp only [decide_eq_true_eq]
        intro he
        exact hnd.1 (by rw [ha, ← he]; exact List.mem_map_of_mem _ ht)
      rw [List.filter_cons_of_neg (by simp [ha]), hrest, List.length_cons]
    · obtain ⟨s, hs, hsx⟩ := hx
      rcases List.mem_cons.mp hs with rfl | hmem
      · exact absurd hsx ha
      · rw [List.filter_cons_of_pos (by simp [ha]), List.length_cons,
          List.length_cons, ← ih hnd.2 ⟨s, hmem, hsx⟩]

/-- Inserting a fresh id appends the new session at the end. -/
theorem mapSet_fresh (l : List Session) (s : Session)
    (h : s.id ∉ l.map Session.id) : mapSet l s = l ++ [s] := by
  induction l with
  | nil => rfl
  | cons a rest ih =>
    rw [List.map_cons, List.mem_cons] at h
    push_neg at h
    have hne : ¬ (a.id = s.id) := fun he => h.1 he.symm
    simp [mapSet, hne, ih h.2]

/-- The inserted session is always present after `mapSet`. -/
theorem mem_mapSet_self (l : List Session) (s : Session) : s ∈ mapSet l s := by
  induction l with
  | nil => simp [mapSet]
  | cons a rest ih =>
    by_cases h : a.id = s.id <;> simp [mapSet, h, ih]

/-- Ids after `mapSet` come from the inserted session or the old pool. -/
theorem mem_ids_mapSet (l : List Session) (s : Session) (x : String)
    (hx : x ∈ (mapSet l s).map Session.id) : x = s.id ∨ x ∈ l.map Session.id := by
  induction l with
  | nil =>
    simp [mapSet] at hx
    exact Or.inl hx
  | cons a rest ih =>
    by_cases h : a.id = s.id
    · simp only [mapSet, if_pos h, List.map_cons, List.mem_cons] at hx
      rcases hx with h1 | h1
      · exact Or.inl h1
      · exact Or.inr (by simp [h1])
    · simp only [mapSet, if_neg h, List.map_cons, List.mem_cons] at hx
      rcases hx with h1 | h1
      · exact Or.inr (by simp [h1])
      · rcases ih h1 with h2 | h2
        · exact Or.inl h2
        · exact Or.inr (by simp [h2])

/-- Insertion via `mapSet` preserves uniqueness of ids. -/
theorem nodup_mapSet (l : List Session) (s : Session)
    (hnd : (l.map Session.id).Nodup) : ((mapSet l s).map Session.id).Nodup := by
  induction l with
  | nil => simp [mapSet]
  | cons a rest ih =>
    rw [List.map_cons, List.nodup_cons] at hnd
    by_cases h : a.id = s.id
    · simp only [mapSet, if_pos h, List.map_cons, List.nodup_cons]
      exact ⟨fun hmem => hnd.1 (h ▸ hmem), hnd.2⟩
    · simp only [mapSet, if_neg h, List.map_cons, List.nodup_cons]
      refine ⟨?_, ih hnd.2⟩
      intro hmem
      rcases mem_ids_mapSet rest s a.id hmem with h1 | h1
      · exact h h1
      · exact hnd.1 h1

/-- Insertion via `mapSet` grows the pool by at most one entry. -/
theorem length_mapSet_le (l : List Session) (s : Session) :
    (mapSet l s).length ≤ l.length + 1 := by
  induction l with
  | nil => simp [mapSet]
  | cons a rest ih =>
    by_cases h : a.id = s.id <;> simp [mapSet, h]
    omega

/-- The `stop` loop always empties the map, whatever the close results. -/
theorem stopLoop_fst_eq_nil (closeOk : Nat → Bool) :
    ∀ n (l : List Session), l.length ≤ n → (stopLoop closeOk l).1 = [] := by
  intro n
  induction n with
  | zero =>
    intro l hl
    have : l = [] := List.length_eq_zero.mp (Nat.le_zero.mp hl)
    subst this
    simp [stopLoop]
  | succ n ih =>
    intro l hl
    cases l with
    | nil => simp [stopLoop]
    | cons a rest =>
      simp only [stopLoop]
      exact ih _ (le_trans (List.length_filter_le _ _) (Nat.le_of_succ_le_succ hl))

/-- Under unique ids, the `stop` loop attempts to close every session's
handle, in pool order. -/
theorem stopLoop_snd_eq_map (closeOk : Nat → Bool) :
    ∀ n (l : List Session), l.length ≤ n → (l.map Session.id).Nodup →
      (stopLoop closeOk l).2 =
        l.map (fun s => PoolEvent.closeAttempt s.handle (closeOk s.handle)) := by
  intro n
  induction n with
  | zero =>
    intro l hl _
    have : l = [] := List.length_eq_zero.mp (Nat.le_zero.mp hl)
    subst this
    simp [stopLoop]
  | succ n ih =>
    intro l hl hnd
    cases l with
    | nil => simp [stopLoop]
    | cons a rest =>
      rw [List.map_cons, List.nodup_cons] at hnd
      have hfil : rest.filter (fun t => ¬ t.id = a.id) = rest := by
        rw [List.filter_eq_self]
        intro t ht
        simp only [decide_eq_true_eq]
        intro he
        exact hnd.1 (by rw [← he]; exact List.mem_map_of_mem _ ht)
      simp only [stopLoop, hfil, sessionDestroy]
      rw [ih rest (Nat.le_of_succ_le_succ hl) hnd.2]
      simp

/-! ## Claims about the session pool -/

/-- C8: for every pool state with unique session ids and every close
behaviour (including failing closes), destroyAll (`stop`) leaves the pool
mapping empty, and its event trace is exactly one attempted close per
session in pool order — so a failed handle close neither propagates nor
prevents teardown of the remaining sessions. -/
theorem destroyAll_empties_pool (closeOk : Nat → Bool) (st : PoolState)
    (hnd : (st.sessions.map Session.id).Nodup) :
    (stop closeOk st).1.sessions = [] ∧
      (stop closeOk st).2 =
        st.sessions.map (fun s => PoolEvent.closeAttempt s.handle (closeOk s.handle)) := by
  constructor
  · simpa [stop] using stopLoop_fst_eq_nil closeOk st.sessions.length st.sessions (le_refl _)
  · simpa [stop] using
      stopLoop_snd_eq_map closeOk st.sessions.length st.sessions (le_refl _) hnd

/-- C6: creating a 4th session in a full capacity-3 pool (distinct ids,
fresh new id) first evicts, via the destroy path (an attempted close of its
handle), the session with the smallest `createdAt`; afterwards the pool
size is exactly 3, the evicted id is absent from `get`, the new id is
present, and `currentSessionId` is the new id. -/
theorem create_evicts_oldest
    (closeOk : Nat → Bool) (st : PoolState) (sid : String) (now newHandle : Nat)
    (old : Session)
    (hcap : st.maxSessions = 3)
    (hlen : st.sessions.length = 3)
    (hnd : (st.sessions.map Session.id).Nodup)
    (hfresh : sid ∉ st.sessions.map Session.id)
    (hold : oldestSession st.sessions = some old) :
    st.sessions.all (fun t => old.createdAt ≤ t.createdAt) = true ∧
      (createSession closeOk st sid now newHandle).2 =
        [PoolEvent.closeAttempt old.handle (closeOk old.handle)] ∧
      (createSession closeOk st sid now newHandle).1.sessions.length = 3 ∧
      getSession (createSession closeOk st sid now newHandle).1 old.id = none ∧
      getSession (createSession closeOk st sid now newHandle).1 sid =
        some ⟨sid, now, newHandle⟩ ∧
      (createSession closeOk st sid now newHandle).1.currentSessionId = some sid := by
  have hmem := oldestSession_mem _ _ hold
  have hmin := oldestSession_min _ _ hold
  have hge : st.maxSessions ≤ st.sessions.length := by rw [hcap, hlen]
  have hfind : st.sessions.find? (fun t => t.id = old.id) = some old :=
    find?_id_of_nodup _ _ hnd hmem
  have holdid : old.id ∈ st.sessions.map Session.id := List.mem_map_of_mem _ hmem
  have hne : ¬ (old.id = sid) := fun h => hfresh (h ▸ holdid)
  have hfreshF :
      sid ∉ (st.sessions.filter (fun t => ¬ t.id = old.id)).map Session.id :=
    fun h => hfresh (((List.filter_sublist st.sessions).map Session.id).subset h)
  have hmapset :
      mapSet (st.sessions.filter (fun t => ¬ t.id = old.id)) ⟨sid, now, newHandle⟩ =
        st.sessions.filter (fun t => ¬ t.id = old.id) ++ [⟨sid, now, newHandle⟩] :=
    mapSet_fresh _ _ hfreshF
  have hlenF :
      (st.sessions.filter (fun t => ¬ t.id = old.id)).length + 1 = 3 := by
    rw [length_filter_ne_id st.sessions old.id hnd ⟨old, hmem, rfl⟩, hlen]
  have hcreate : createSession closeOk st sid now newHandle =
      ({ sessions :=
           st.sessions.filter (fun t => ¬ t.id = old.id) ++ [⟨sid, now, newHandle⟩],
         currentSessionId := some sid,
         maxSessions := st.maxSessions },
       [PoolEvent.closeAttempt old.handle (closeOk old.handle)]) := by
    simp only [createSession, destroySession, if_pos hge, hold, hfind,
      sessionDestroy, hmapset]
  refine ⟨List.all_eq_true.mpr (fun t ht => by simpa using hmin t ht), ?_, ?_, ?_, ?_, ?_⟩
  · rw [hcreate]
  · rw [hcreate]
    simp only [List.length_append, List.length_cons, List.length_nil]
    omega
  · rw [hcreate]
    unfold getSession
    rw [List.find?_eq_none]
    intro x hx
    rcases List.mem_append.mp hx with hxF | hxN
    · have := (List.mem_filter.mp hxF).2
      simpa using this
    · have hxeq : x = ⟨sid, now, newHandle⟩ := by simpa using hxN
      subst hxeq
      simpa using fun h => hne h.symm
  · rw [hcreate]
    unfold getSession
    rw [List.find?_append]
    have hFnone :
        (st.sessions.filter (fun t => ¬ t.id = old.id)).find?
          (fun s => s.id = sid) = none := by
      rw [List.find?_eq_none]
      intro x hx
      have hxmem : x ∈ st.sessions := (List.mem_filter.mp hx).1
      have hxid : x.id ∈ st.sessions.map Session.id := List.mem_map_of_mem _ hxmem
      simp only [decide_eq_true_eq]
      intro h
      exact hfresh (h ▸ hxid)
    rw [hFnone]
    simp [List.find?]
  · rw [hcreate]

/-- Concrete instance for `create_evicts_oldest`. -/
theorem create_evicts_oldest_witness :
    ([⟨"a", 10, 1⟩, ⟨"b", 5, 2⟩, ⟨"c", 20, 3⟩] : List Session).all
        (fun t => (5 : Nat) ≤ t.createdAt) = true ∧
      (createSession (fun _ => true)
          ⟨[⟨"a", 10, 1⟩, ⟨"b", 5, 2⟩, ⟨"c", 20, 3⟩], some "c", 3⟩ "d" 30 4).2 =
        [PoolEvent.closeAttempt 2 true] ∧
      (createSession (fun _ => true)
          ⟨[⟨"a", 10, 1⟩, ⟨"b", 5, 2⟩, ⟨"c", 20, 3⟩], some "c", 3⟩ "d" 30 4).1.sessions.length =
        3 ∧
      getSession
          (createSession (fun _ => true)
            ⟨[⟨"a", 10, 1⟩, ⟨"b", 5, 2⟩, ⟨"c", 20, 3⟩], some "c", 3⟩ "d" 30 4).1 "b" =
        none ∧
      getSession
          (createSession (fun _ => true)
            ⟨[⟨"a", 10, 1⟩, ⟨"b", 5, 2⟩, ⟨"c", 20, 3⟩], some "c", 3⟩ "d" 30 4).1 "d" =
        some ⟨"d", 30, 4⟩ ∧
      (createSession (fun _ => true)
          ⟨[⟨"a", 10, 1⟩, ⟨"b", 5, 2⟩, ⟨"c", 20, 3⟩], some "c", 3⟩ "d" 30 4).1.currentSessionId =
        some "d" :=
  create_evicts_oldest (fun _ => true)
    ⟨[⟨"a", 10, 1⟩, ⟨"b", 5, 2⟩, ⟨"c", 20, 3⟩], some "c", 3⟩ "d" 30 4
    ⟨"b", 5, 2⟩ rfl rfl (by simp) (by simp) rfl

/-- Concrete instance for `destroyAll_empties_pool`: the close of handle 1
fails, yet the pool ends empty and both closes were attempted. -/
theorem destroyAll_empties_pool_witness :
    (stop (fun h => h == 2) ⟨[⟨"a", 0, 1⟩, ⟨"b", 1, 2⟩], some "b", 3⟩).1.sessions = [] ∧
      (stop (fun h => h == 2) ⟨[⟨"a", 0, 1⟩, ⟨"b", 1, 2⟩], some "b", 3⟩).2 =
        ([⟨"a", 0, 1⟩, ⟨"b", 1, 2⟩] : List Session).map
          (fun s => PoolEvent.closeAttempt s.handle ((fun h => h == 2) s.handle)) :=
  destroyAll_empties_pool (fun h => h == 2) ⟨[⟨"a", 0, 1⟩, ⟨"b", 1, 2⟩], some "b", 3⟩
    (by simp)

/-- Explicit destruction preserves the pool invariant. -/
theorem destroySession_wf (closeOk : Nat → Bool) (st : PoolState) (sid : String)
    (hwf : PoolWF st) : PoolWF (destroySession closeOk st sid).1 := by
  obtain ⟨hlen, hnd, hcur⟩ := hwf
  unfold destroySession
  cases hfind : st.sessions.find? (fun t => t.id = sid) with
  | none => exact ⟨hlen, hnd, hcur⟩
  | some s =>
    refine ⟨(List.length_filter_le _ _).trans hlen,
      List.Nodup.sublist ((List.filter_sublist _).map _) hnd, ?_⟩
    intro c hc
    simp only at hc
    by_cases he : st.currentSessionId = some sid
    · rw [if_pos he] at hc
      cases hc
    · rw [if_neg he] at hc
      obtain ⟨t, ht, htid⟩ := hcur c hc
      refine ⟨t, List.mem_filter.mpr ⟨ht, ?_⟩, htid⟩
      simp only [decide_eq_true_eq]
      intro h2
      exact he (by rw [hc, ← htid, h2])

/-- Session creation preserves the pool invariant (capacity at least 1). -/
theorem createSession_wf (closeOk : Nat → Bool) (st : PoolState) (sid : String)
    (now newHandle : Nat) (hwf : PoolWF st) (hcap : 1 ≤ st.maxSessions) :
    PoolWF (createSession closeOk st sid now newHandle).1 := by
  obtain ⟨hlen, hnd, hcur⟩ := hwf
  by_cases hge : st.maxSessions ≤ st.sessions.length
  · have hpos : 1 ≤ st.sessions.length := le_trans hcap hge
    have hne : st.sessions ≠ [] := by
      intro h
      rw [h] at hpos
      simp at hpos
    obtain ⟨old, hold⟩ := oldestSession_isSome _ hne
    have hmem := oldestSession_mem _ _ hold
    have hfind := find?_id_of_nodup _ _ hnd hmem
    have hc1 : (createSession closeOk st sid now newHandle).1 =
        { sessions :=
            mapSet (st.sessions.filter (fun t => ¬ t.id = old.id)) ⟨sid, now, newHandle⟩,
          currentSessionId := some sid,
          maxSessions := st.maxSessions } := by
      simp only [createSession, destroySession, if_pos hge, hold, hfind]
    rw [hc1]
    have hlenF := length_filter_ne_id st.sessions old.id hnd ⟨old, hmem, rfl⟩
    refine ⟨?_, ?_, ?_⟩
    · have h1 := length_mapSet_le (st.sessions.filter (fun t => ¬ t.id = old.id))
        ⟨sid, now, newHandle⟩
      simp only
      omega
    · exact nodup_mapSet _ _ (List.Nodup.sublist ((List.filter_sublist _).map _) hnd)
    · intro c hc
      have hceq : sid = c := Option.some.inj hc
      exact ⟨⟨sid, now, newHandle⟩, mem_mapSet_self _ _, hceq⟩
  · have hc1 : (createSession closeOk st sid now newHandle).1 =
        { sessions := mapSet st.sessions ⟨sid, now, newHandle⟩,
          currentSessionId := some sid,
          maxSessions := st.maxSessions } := by
      simp only [createSession, if_neg hge]
    rw [hc1]
    refine ⟨?_, nodup_mapSet _ _ hnd, ?_⟩
    · have h1 := length_mapSet_le st.sessions ⟨sid, now, newHandle⟩
      simp only
      omega
    · intro c hc
      have hceq : sid = c := Option.some.inj hc
      exact ⟨⟨sid, now, newHandle⟩, mem_mapSet_self _ _, hceq⟩

/-- C7 (amended): from a well-formed state with capacity ≥ 1, every public
operation except destroyAll preserves the full invariant (size within
capacity and a live `currentSessionId`); destroyAll keeps the size within
capacity (the pool becomes empty) but does not clear `currentSessionId`,
so the currentId-validity half does not survive it — see the
counterexample. -/
theorem pool_invariant_amended
    (closeOk : Nat → Bool) (op : PoolOp) (st : PoolState)
    (hwf : PoolWF st) (hcap : 1 ≤ st.maxSessions) :
    (op ≠ PoolOp.destroyAll → PoolWF (step closeOk op st).1) ∧
      (step closeOk op st).1.sessions.length ≤ (step closeOk op st).1.maxSessions := by
  cases op with
  | create sid now newHandle =>
    exact ⟨fun _ => createSession_wf closeOk st sid now newHandle hwf hcap,
      (createSession_wf closeOk st sid now newHandle hwf hcap).1⟩
  | destroy sid =>
    exact ⟨fun _ => destroySession_wf closeOk st sid hwf,
      (destroySession_wf closeOk st sid hwf).1⟩
  | lookup sid => exact ⟨fun _ => hwf, hwf.1⟩
  | lookupCurrent => exact ⟨fun _ => hwf, hwf.1⟩
  | destroyAll =>
    refine ⟨fun h => absurd rfl h, ?_⟩
    have h1 : (step closeOk PoolOp.destroyAll st).1.sessions = [] := by
      simpa [step, stop] using
        stopLoop_fst_eq_nil closeOk st.sessions.length st.sessions (le_refl _)
    rw [h1]
    simp

/-- Concrete instance for `pool_invariant_amended`. -/
theorem pool_invariant_amended_witness :
    ((PoolOp.destroy "a" ≠ PoolOp.destroyAll →
        PoolWF (step (fun _ => true) (PoolOp.destroy "a") ⟨[⟨"a", 0, 1⟩], some "a", 3⟩).1) ∧
      (step (fun _ => true) (PoolOp.destroy "a")
            ⟨[⟨"a", 0, 1⟩], some "a", 3⟩).1.sessions.length ≤
        (step (fun _ => true) (PoolOp.destroy "a")
            ⟨[⟨"a", 0, 1⟩], some "a", 3⟩).1.maxSessions) :=
  pool_invariant_amended (fun _ => true) (PoolOp.destroy "a")
    ⟨[⟨"a", 0, 1⟩], some "a", 3⟩
    ⟨by norm_num, by simp, fun sid h => ⟨⟨"a", 0, 1⟩, by simp, by
      simpa using (Option.some.inj h)⟩⟩
    (by norm_num)

/-- C7 counterexample: destroyAll (`stop`) does not clear
`currentSessionId`, so from the well-formed one-session state it returns a
state whose `currentSessionId` still names the destroyed session and whose
pool is empty — the claimed invariant fails after this public operation. -/
theorem pool_invariant_counterexample :
    PoolWF ⟨[⟨"a", 0, 1⟩], some "a", 3⟩ ∧
      (step (fun _ => true) PoolOp.destroyAll
          ⟨[⟨"a", 0, 1⟩], some "a", 3⟩).1.sessions = [] ∧
      (step (fun _ => true) PoolOp.destroyAll
          ⟨[⟨"a", 0, 1⟩], some "a", 3⟩).1.currentSessionId = some "a" ∧
      ¬ PoolWF (step (fun _ => true) PoolOp.destroyAll
          ⟨[⟨"a", 0, 1⟩], some "a", 3⟩).1 := by
  have hstep : (step (fun _ => true) PoolOp.destroyAll
      ⟨[⟨"a", 0, 1⟩], some "a", 3⟩).1 = ⟨[], some "a", 3⟩ := by
    simp [step, stop, stopLoop, sessionDestroy]
  refine ⟨⟨by norm_num, by simp, fun sid h => ⟨⟨"a", 0, 1⟩, by simp, by
    simpa using (Option.some.inj h)⟩⟩, by rw [hstep], by rw [hstep], ?_⟩
  rw [hstep]
  rintro ⟨-, -, hcur⟩
  obtain ⟨s, hs, -⟩ := hcur "a" rfl
  exact absurd hs (List.not_mem_nil s)

/-- C9 counterexample: `createSession` called with an id already in the
pool (here from a reachable one-session state) overwrites the map entry:
the old session leaves the pool's ownership, yet the event trace is empty —
no close of handle 1 was attempted.  So a handle can be dropped without an
attempted close. -/
theorem handle_drop_counterexample :
    Session.mk "a" 0 1 ∈ (PoolState.mk [⟨"a", 0, 1⟩] (some "a") 3).sessions ∧
      (step (fun _ => true) (PoolOp.create "a" 5 2)
          ⟨[⟨"a", 0, 1⟩], some "a", 3⟩).1.sessions = [⟨"a", 5, 2⟩] ∧
      Session.mk "a" 0 1 ∉ (step (fun _ => true) (PoolOp.create "a" 5 2)
          ⟨[⟨"a", 0, 1⟩], some "a", 3⟩).1.sessions ∧
      (step (fun _ => true) (PoolOp.create "a" 5 2)
          ⟨[⟨"a", 0, 1⟩], some "a", 3⟩).2 = [] := by
  refine ⟨by simp, ?_, ?_, ?_⟩ <;>
    simp [step, createSession, mapSet]

/-- C9 (amended): under unique ids, and provided create is never invoked
with an id already present in the pool (the overwrite case of the
counterexample), no session is ever removed from the pool's ownership by a
public operation — eviction, explicit destruction, or shutdown — without an
attempted close of its handle appearing in that operation's event trace;
eviction and explicit destruction route through the same teardown path
(`destroySession`). -/
theorem removal_implies_close_attempt
    (closeOk : Nat → Bool) (op : PoolOp) (st : PoolState)
    (hnd : (st.sessions.map Session.id).Nodup)
    (hfresh : ∀ sid now newHandle, op = PoolOp.create sid now newHandle →
      sid ∉ st.sessions.map Session.id)
    (s : Session) (hs : s ∈ st.sessions)
    (hrem : s ∉ (step closeOk op st).1.sessions) :
    PoolEvent.closeAttempt s.handle (closeOk s.handle) ∈ (step closeOk op st).2 := by
  cases op with
  | lookup sid => exact absurd hs hrem
  | lookupCurrent => exact absurd hs hrem
  | destroy sid =>
    cases hfind : st.sessions.find? (fun t => t.id = sid) with
    | none =>
      have hstep : step closeOk (PoolOp.destroy sid) st = (st, []) := by
        simp only [step, destroySession, hfind]
      rw [hstep] at hrem
      exact absurd hs hrem
    | some t =>
      have hstep : step closeOk (PoolOp.destroy sid) st =
          ({ sessions := st.sessions.filter (fun u => ¬ u.id = sid),
             currentSessionId :=
               if st.currentSessionId = some sid then none else st.currentSessionId,
             maxSessions := st.maxSessions }, sessionDestroy closeOk t) := by
        simp only [step, destroySession, hfind]
      rw [hstep] at hrem ⊢
      simp only at hrem ⊢
      have hsid : s.id = sid := by
        by_contra hne
        exact hrem (List.mem_filter.mpr ⟨hs, by simpa using hne⟩)
      have htmem : t ∈ st.sessions := List.mem_of_find?_eq_some hfind
      have htid : t.id = sid := by simpa using List.find?_some hfind
      have hst : s = t := id_inj_of_nodup _ hnd s t hs htmem (by rw [hsid, htid])
      rw [hst]
      simp [sessionDestroy]
  | destroyAll =>
    simp only [step, stop] at hrem ⊢
    rw [stopLoop_snd_eq_map closeOk st.sessions.length st.sessions (le_refl _) hnd]
    exact List.mem_map_of_mem _ hs
  | create sid now newHandle =>
    have hfr : sid ∉ st.sessions.map Session.id := hfresh sid now newHandle rfl
    simp only [step] at hrem ⊢
    by_cases hge : st.maxSessions ≤ st.sessions.length
    · have hne : st.sessions ≠ [] := by
        intro h
        rw [h] at hs
        cases hs
      obtain ⟨old, hold⟩ := oldestSession_isSome _ hne
      have hmem := oldestSession_mem _ _ hold
      have hfind := find?_id_of_nodup _ _ hnd hmem
      have hfreshF :
          sid ∉ (st.sessions.filter (fun t => ¬ t.id = old.id)).map Session.id :=
        fun h => hfr (((List.filter_sublist st.sessions).map Session.id).subset h)
      have hms : mapSet (st.sessions.filter (fun t => ¬ t.id = old.id))
            ⟨sid, now, newHandle⟩ =
          st.sessions.filter (fun t => ¬ t.id = old.id) ++ [⟨sid, now, newHandle⟩] :=
        mapSet_fresh _ _ hfreshF
      have hcreate : createSession closeOk st sid now newHandle =
          ({ sessions :=
               st.sessions.filter (fun t => ¬ t.id = old.id) ++ [⟨sid, now, newHandle⟩],
             currentSessionId := some sid,
             maxSessions := st.maxSessions },
           [PoolEvent.closeAttempt old.handle (closeOk old.handle)]) := by
        simp only [createSession, destroySession, if_pos hge, hold, hfind,
          sessionDestroy, hms]
      rw [hcreate] at hrem ⊢
      simp only at hrem ⊢
      have hsid : s.id = old.id := by
        by_contra hne2
        exact hrem
          (List.mem_append.mpr (Or.inl (List.mem_filter.mpr ⟨hs, by simpa using hne2⟩)))
      have hseq : s = old := id_inj_of_nodup _ hnd s old hs hmem hsid
      rw [hseq]
      simp
    · have hms : mapSet st.sessions ⟨sid, now, newHandle⟩ =
          st.sessions ++ [⟨sid, now, newHandle⟩] := mapSet_fresh _ _ hfr
      have hcreate : createSession closeOk st sid now newHandle =
          ({ sessions := st.sessions ++ [⟨sid, now, newHandle⟩],
             currentSessionId := some sid,
             maxSessions := st.maxSessions }, []) := by
        simp only [createSession, if_neg hge, hms]
      rw [hcreate] at hrem
      exact absurd (List.mem_append.mpr (Or.inl hs)) hrem

/-- Concrete instance for `removal_implies_close_attempt`. -/
theorem removal_implies_close_attempt_witness :
    PoolEvent.closeAttempt 1 true ∈
      (step (fun _ => true) (PoolOp.destroy "a") ⟨[⟨"a", 0, 1⟩], some "a", 3⟩).2 :=
  removal_implies_close_attempt (fun _ => true) (PoolOp.destroy "a")
    ⟨[⟨"a", 0, 1⟩], some "a", 3⟩ (by simp)
    (fun sid now newHandle h => by simp at h)
    ⟨"a", 0, 1⟩ (by simp)
    (by simp [step, destroySession, sessionDestroy])

end Browserbase
